import Mathlib

/-!
# Cache simulator: shallow embedding and verification

Embedding of the core of the `cache-simulator` repository:
`src/cache_config.py` (`CacheConfig`), `src/replacement_policies.py`
(`LRUPolicy`, `FIFOPolicy`, `RandomPolicy`) and `src/cache.py` (`Cache`).

Modelling conventions:
* Python integers on the in-contract domain (non-negative sizes and
  addresses) are `Nat`; Python floor division `//` and `%` on
  non-negative operands coincide with `Nat` division and modulus.
  For the claims that probe negative inputs, a second, full-integer
  model of the configuration constructor (`ConfigZ`) uses `Int.fdiv` /
  `Int.fmod`, which are exactly Python's `//` and `%` on `Int`.
* A Python statement that raises (`ZeroDivisionError` on division by
  zero, `IndexError` on `pop(0)` of an empty list or on out-of-range
  indexing, `ValueError` on `randint(0, -1)`) is modelled by returning
  `none`; normal completion returns `some`.
* `random.randint(0, len(blocks) - 1)` at an eviction is modelled by an
  externally supplied entropy value `draw : Nat`, reduced into range as
  `draw % blocks.length`; when `blocks` is empty this index is out of
  range and `List.get?` yields `none`, matching the `ValueError` Python
  raises there.
* Console `print` calls in the source are diagnostics that read but
  never write the model state; they are not modelled.
-/

/-- Outcome of a cache access: the Python code returns the strings
`"HIT"` / `"MISS"`. -/
inductive AccessOutcome where
  | HIT
  | MISS
deriving DecidableEq, Repr

/-- The three replacement policies of `replacement_policies.py`. -/
inductive PolicyKind where
  | lru
  | fifo
  | random
deriving DecidableEq, Repr

/-- Python `str(policy)` — the `name` each policy passes to the base
class. -/
def PolicyKind.name : PolicyKind → String
  | .lru => "LRU"
  | .fifo => "FIFO"
  | .random => "Random"

/-- Result of one `policy.access(blocks, tag, associativity)` call:
the returned pair plus the in-place mutated `blocks` list. -/
structure DecideResult where
  outcome : AccessOutcome
  evicted : Option Nat
  blocks : List Nat
deriving DecidableEq, Repr

/-- Embeds `LRUPolicy.access` (replacement_policies.py, lines 40-59).
On hit, `blocks.remove(tag); blocks.append(tag)`; on miss below
capacity, `blocks.append(tag)`; otherwise `replaced = blocks.pop(0)`
then append.  `pop(0)` of an empty list raises `IndexError`, hence the
`none` branch. -/
def LRUPolicy.access (blocks : List Nat) (tag : Nat) (associativity : Nat) :
    Option DecideResult :=
  if tag ∈ blocks then
    some ⟨.HIT, none, (blocks.erase tag) ++ [tag]⟩
  else if blocks.length < associativity then
    some ⟨.MISS, none, blocks ++ [tag]⟩
  else
    match blocks with
    | [] => none
    | replaced :: rest => some ⟨.MISS, some replaced, rest ++ [tag]⟩

/-- Embeds `FIFOPolicy.access` (replacement_policies.py, lines 70-85):
like LRU
but hits do not reorder the list. -/
def FIFOPolicy.access (blocks : List Nat) (tag : Nat) (associativity : Nat) :
    Option DecideResult :=
  if tag ∈ blocks then
    some ⟨.HIT, none, blocks⟩
  else if blocks.length < associativity then
    some ⟨.MISS, none, blocks ++ [tag]⟩
  else
    match blocks with
    | [] => none
    | replaced :: rest => some ⟨.MISS, some replaced, rest ++ [tag]⟩

/-- Embeds `RandomPolicy.access` (replacement_policies.py, lines 98-113).
At an eviction the victim index is `randint(0, len(blocks) - 1)`,
modelled as `draw % blocks.length` for the supplied entropy `draw`;
`blocks[index] = tag` is `List.set`.  With `blocks = []` the `randint`
call raises `ValueError`, matched here by `List.get?` returning
`none`. -/
def RandomPolicy.access (blocks : List Nat) (tag : Nat) (associativity : Nat)
    (draw : Nat) : Option DecideResult :=
  if tag ∈ blocks then
    some ⟨.HIT, none, blocks⟩
  else if blocks.length < associativity then
    some ⟨.MISS, none, blocks ++ [tag]⟩
  else
    match blocks.get? (draw % blocks.length) with
    | some replaced =>
        some ⟨.MISS, some replaced, blocks.set (draw % blocks.length) tag⟩
    | none => none

/-- Dispatch on the active policy object; `draw` feeds only the random
policy. -/
def policyDecide (p : PolicyKind) (blocks : List Nat) (tag : Nat)
    (associativity : Nat) (draw : Nat) : Option DecideResult :=
  match p with
  | .lru => LRUPolicy.access blocks tag associativity
  | .fifo => FIFOPolicy.access blocks tag associativity
  | .random => RandomPolicy.access blocks tag associativity draw

/-- Fields of `CacheConfig` (cache_config.py): stored inputs and the
derived fields computed once in the constructor, on the in-contract
non-negative domain. -/
structure CacheConfig where
  cache_size_kb : Nat
  block_size_bytes : Nat
  associativity : Nat
  cache_size_bytes : Nat
  num_blocks : Nat
  num_sets : Nat
deriving DecidableEq, Repr

/-- The constructor body of `CacheConfig.__init__`:
`cache_size_bytes = cache_size_kb * 1024`,
`num_blocks = cache_size_bytes // block_size_bytes` (raising
`ZeroDivisionError` when `block_size_bytes = 0`, hence `none`), and
`num_sets = 1` when `associativity == 0` else
`num_blocks // associativity`. -/
def CacheConfig.build (cache_size_kb block_size_bytes associativity : Nat) :
    Option CacheConfig :=
  if block_size_bytes = 0 then none
  else
    let cache_size_bytes := cache_size_kb * 1024
    let num_blocks := cache_size_bytes / block_size_bytes
    let num_sets := if associativity = 0 then 1 else num_blocks / associativity
    some ⟨cache_size_kb, block_size_bytes, associativity,
          cache_size_bytes, num_blocks, num_sets⟩

/-- Full-integer model of `CacheConfig.__init__`, for probing the
constructor on negative inputs exactly as Python evaluates them:
`Int.fdiv` is Python's floor division `//`. -/
structure ConfigZ where
  cache_size_kb : Int
  block_size_bytes : Int
  associativity : Int
  cache_size_bytes : Int
  num_blocks : Int
  num_sets : Int
deriving DecidableEq, Repr

/-- Embeds `CacheConfig.__init__` over `Int`: the only failing branch in the
Python body is the `ZeroDivisionError` when `block_size_bytes == 0`; no
validation of sign is performed anywhere. -/
def ConfigZ.build (cache_size_kb block_size_bytes associativity : Int) :
    Option ConfigZ :=
  if block_size_bytes = 0 then none
  else
    let cache_size_bytes := cache_size_kb * 1024
    let num_blocks := Int.fdiv cache_size_bytes block_size_bytes
    let num_sets := if associativity = 0 then 1
                    else Int.fdiv num_blocks associativity
    some ⟨cache_size_kb, block_size_bytes, associativity,
          cache_size_bytes, num_blocks, num_sets⟩

/-- Embeds `CacheConfig.get_address_breakdown` (cache_config.py, lines
30-40):
`block_number = address // block_size_bytes`,
`set_index = block_number % num_sets`,
`tag = block_number // num_sets`.  Division by a zero
`block_size_bytes` or `num_sets` raises in Python, hence the guards. -/
def CacheConfig.get_address_breakdown (cfg : CacheConfig) (address : Nat) :
    Option (Nat × Nat) :=
  if cfg.block_size_bytes = 0 then none
  else if cfg.num_sets = 0 then none
  else
    let block_number := address / cfg.block_size_bytes
    some (block_number % cfg.num_sets, block_number / cfg.num_sets)

/-- Embeds `Cache._get_set_index` (cache.py, lines 86-89). -/
def Cache.get_set_index (cfg : CacheConfig) (address : Nat) : Option Nat :=
  if cfg.block_size_bytes = 0 then none
  else if cfg.num_sets = 0 then none
  else some ((address / cfg.block_size_bytes) % cfg.num_sets)

/-- Embeds `Cache._get_tag` (cache.py, lines 91-94). -/
def Cache.get_tag (cfg : CacheConfig) (address : Nat) : Option Nat :=
  if cfg.block_size_bytes = 0 then none
  else if cfg.num_sets = 0 then none
  else some ((address / cfg.block_size_bytes) / cfg.num_sets)

/-- Model of Python's `str.upper()` used by `_setup_policy`: upper-case
every character (ASCII case mapping, which agrees with Python on the
selector strings the contract names). -/
def pyUpper (s : String) : String :=
  ⟨s.data.map Char.toUpper⟩

/-- Embeds `Cache._setup_policy` (cache.py, lines 33-45): upper-case the
selector, match against the three known names, silently fall back to
LRU otherwise. -/
def Cache.setup_policy (policy_name : String) : PolicyKind :=
  let p := pyUpper policy_name
  if p = "LRU" then .lru
  else if p = "FIFO" then .fifo
  else if p = "RANDOM" then .random
  else .lru

/-- One entry of the bounded `access_log` kept by `Cache.access`. -/
structure LogEntry where
  address : Nat
  set : Nat
  result : AccessOutcome
deriving DecidableEq, Repr

/-- The mutable state of a `Cache` object: the config, the active
policy with its private `{accesses, hits}` counters, the `stats`
dictionary, the per-set block lists and the bounded access log. -/
structure CacheState where
  config : CacheConfig
  policy : PolicyKind
  accesses : Nat
  hits : Nat
  misses : Nat
  replacements : Nat
  sets : List (List Nat)
  access_log : List LogEntry
  policy_accesses : Nat
  policy_hits : Nat
deriving DecidableEq, Repr

/-- Embeds `Cache.__init__` (cache.py): zeroed counters, `num_sets` empty
sets, policy selected from the (case-insensitive) selector string. -/
def Cache.init (cfg : CacheConfig) (policy_name : String) : CacheState :=
  { config := cfg
    policy := Cache.setup_policy policy_name
    accesses := 0
    hits := 0
    misses := 0
    replacements := 0
    sets := List.replicate cfg.num_sets []
    access_log := []
    policy_accesses := 0
    policy_hits := 0 }

/-- Embeds `Cache.access` (cache.py, lines 47-84): bump the access counters,
derive `(set_index, tag)`, delegate to the policy over
`sets[set_index]`, update hit/miss/replacement counters and the bounded
log, and return the outcome.  Any Python exception along the way
(division by zero, out-of-range indexing, the policies' empty-list
failures) yields `none`. -/
def Cache.access (draw : Nat) (c : CacheState) (address : Nat) :
    Option (AccessOutcome × CacheState) :=
  let c1 := { c with accesses := c.accesses + 1,
                     policy_accesses := c.policy_accesses + 1 }
  if c.config.block_size_bytes = 0 then none
  else if c.config.num_sets = 0 then none
  else
    let block_num := address / c.config.block_size_bytes
    let set_index := block_num % c.config.num_sets
    let tag := block_num / c.config.num_sets
    match c1.sets.get? set_index with
    | none => none
    | some blocks =>
      match policyDecide c1.policy blocks tag c.config.associativity draw with
      | none => none
      | some r =>
        let c2 := { c1 with sets := c1.sets.set set_index r.blocks }
        let c3 :=
          match r.outcome with
          | .HIT => { c2 with hits := c2.hits + 1,
                              policy_hits := c2.policy_hits + 1 }
          | .MISS =>
              { c2 with misses := c2.misses + 1,
                        replacements :=
                          c2.replacements +
                            (match r.evicted with
                             | some _ => 1
                             | none => 0) }
        let c4 :=
          if c3.access_log.length < 1000 then
            { c3 with access_log :=
                c3.access_log ++ [⟨address, set_index, r.outcome⟩] }
          else c3
        some (r.outcome, c4)

/-- Run a finite address sequence through `Cache.access`; the entropy
for the random policy at step `i` is `oracle` applied to the access
counter at that step. -/
def Cache.run (oracle : Nat → Nat) (c : CacheState) :
    List Nat → Option (List AccessOutcome × CacheState)
  | [] => some ([], c)
  | a :: rest =>
    match Cache.access (oracle c.accesses) c a with
    | none => none
    | some (o, c') =>
      match Cache.run oracle c' rest with
      | none => none
      | some (os, cf) => some (o :: os, cf)

/-- Return type of `Cache.get_stats` (cache.py, lines 96-108): a freshly built
dictionary; `hit_rate` uses Python true division, modelled in `ℚ`. -/
structure StatsSnapshot where
  accesses : Nat
  hits : Nat
  misses : Nat
  hit_rate : ℚ
  replacements : Nat
  policy : String
deriving DecidableEq, Repr

/-- The body of `Cache.get_stats`. -/
def Cache.get_stats (c : CacheState) : StatsSnapshot :=
  let total := c.accesses
  let hit_rate : ℚ := if 0 < total then (c.hits : ℚ) / (total : ℚ) * 100 else 0
  { accesses := total
    hits := c.hits
    misses := c.misses
    hit_rate := hit_rate
    replacements := c.replacements
    policy := c.policy.name }

/-- The keys of the dictionary literal returned by `Cache.get_stats`,
in source order. -/
def Cache.get_stats_keys : List String :=
  ["accesses", "hits", "misses", "hit_rate", "replacements", "policy"]

/-- Run a tag sequence against a single set under `LRUPolicy.access`,
collecting outcomes and the final resident list. -/
def LRUPolicy.run (blocks : List Nat) (associativity : Nat) :
    List Nat → Option (List AccessOutcome × List Nat)
  | [] => some ([], blocks)
  | t :: ts =>
    match LRUPolicy.access blocks t associativity with
    | none => none
    | some r =>
      match LRUPolicy.run r.blocks associativity ts with
      | none => none
      | some (os, bs) => some (r.outcome :: os, bs)

/-- Run a tag sequence against a single set under `FIFOPolicy.access`. -/
def FIFOPolicy.run (blocks : List Nat) (associativity : Nat) :
    List Nat → Option (List AccessOutcome × List Nat)
  | [] => some ([], blocks)
  | t :: ts =>
    match FIFOPolicy.access blocks t associativity with
    | none => none
    | some r =>
      match FIFOPolicy.run r.blocks associativity ts with
      | none => none
      | some (os, bs) => some (r.outcome :: os, bs)

/-! ## Well-formedness and instrumentation -/

/-- The set index `Cache.access` computes for an address. -/
def Cache.target_index (c : CacheState) (address : Nat) : Nat :=
  (address / c.config.block_size_bytes) % c.config.num_sets

/-- The associative set `Cache.access` hands to the policy for an
address (empty if the index were out of range). -/
def Cache.target_set (c : CacheState) (address : Nat) : List Nat :=
  (c.sets.get? (Cache.target_index c address)).getD []

/-- Well-formed cache: a positive per-set capacity (`associativity ≥ 1`;
the `associativity = 0` sentinel crashes the policies, see C1), non-zero
divisors, one block list per set, and every set duplicate-free within
capacity. -/
def CacheWF (c : CacheState) : Prop :=
  1 ≤ c.config.associativity ∧
  c.config.block_size_bytes ≠ 0 ∧
  c.config.num_sets ≠ 0 ∧
  c.sets.length = c.config.num_sets ∧
  ∀ b ∈ c.sets, b.Nodup ∧ b.length ≤ c.config.associativity

/-- What one successful policy call guarantees relative to the set it
was given. -/
def GoodStep (blocks : List Nat) (tag assoc : Nat) (r : DecideResult) : Prop :=
  r.blocks.Nodup ∧ r.blocks.length ≤ assoc ∧
  (r.outcome = .HIT ↔ tag ∈ blocks) ∧
  (r.evicted = none ↔ (tag ∈ blocks ∨ blocks.length < assoc))

/-- Whether an access is a miss that still found spare capacity in its
target set (these are exactly the misses that do not bump the
replacement counter). -/
def Cache.spare_miss (draw : Nat) (c : CacheState) (address : Nat) : Bool :=
  match Cache.access draw c address with
  | some (.MISS, _) =>
      decide ((Cache.target_set c address).length < c.config.associativity)
  | _ => false

/-- Number of spare-capacity misses along an address sequence. -/
def Cache.count_spare_misses (oracle : Nat → Nat) (c : CacheState) :
    List Nat → Nat
  | [] => 0
  | a :: rest =>
    (if Cache.spare_miss (oracle c.accesses) c a then 1 else 0) +
      (match Cache.access (oracle c.accesses) c a with
       | some (_, c') => Cache.count_spare_misses oracle c' rest
       | none => 0)


/-! ## Helper lemmas -/

theorem nodup_append_single {l : List Nat} {a : Nat} (hl : l.Nodup)
    (ha : a ∉ l) : (l ++ [a]).Nodup := by
  simp [List.nodup_append, hl, ha]

/-! ## Claims -/

/-- C1: the claim says `Cache.access` is infallible for every valid
configuration including the fully-associative sentinel
`associativity = 0`.  The code refutes this: with `associativity = 0`
the miss branch of every policy sees `len(blocks) < 0` as false and
immediately evicts from the empty set — `pop(0)` raises `IndexError`
for LRU/FIFO and `randint(0, -1)` raises `ValueError` for Random — so
the very first access on a fresh fully-associative cache fails.  This
theorem evaluates the embedded code at that failing input for all
three policies. -/
theorem fully_associative_first_access_fails :
    ((CacheConfig.build 8 64 0).map fun cfg =>
        Cache.access 0 (Cache.init cfg "LRU") 0) = some none ∧
    ((CacheConfig.build 8 64 0).map fun cfg =>
        Cache.access 0 (Cache.init cfg "FIFO") 0) = some none ∧
    ((CacheConfig.build 8 64 0).map fun cfg =>
        Cache.access 0 (Cache.init cfg "RANDOM") 0) = some none := by
  decide

/-- C2: the claim says `CacheConfig` construction fails with
`InvalidConfiguration` when `block_size_bytes ≤ 0`,
`cache_size_bytes ≤ 0` or `associativity < 0`.  The constructor body
performs no validation at all: evaluated over full Python integers, it
completes normally on a negative associativity, a negative cache size,
a negative block size and a zero cache size, silently producing
nonsensical derived fields (e.g. `num_sets = -128`). -/
theorem config_build_performs_no_validation :
    ConfigZ.build 8 64 (-1) = some ⟨8, 64, -1, 8192, 128, -128⟩ ∧
    ConfigZ.build (-8) 64 2 = some ⟨-8, 64, 2, -8192, -128, -64⟩ ∧
    ConfigZ.build 8 (-64) 2 = some ⟨8, -64, 2, 8192, -128, -64⟩ ∧
    ConfigZ.build 0 64 2 = some ⟨0, 64, 2, 0, 0, 0⟩ := by
  decide

/-- C3: LRU behaviour.  On hit the tag is removed from its position
and appended at the end, with no eviction; on a miss below capacity the
tag is appended with no eviction; on a miss at capacity the head
(position 0) is removed, reported as evicted, and the tag is appended.
Consequently a 2-way set starting empty and accessing `[A, B, A, C]`
(here `A, B, C = 0, 1, 2`) yields `[Miss, Miss, Hit, Miss]` with final
residents `[A, C]` — B is the eviction victim. -/
theorem lru_access_spec :
    (∀ (blocks : List Nat) (tag assoc : Nat), tag ∈ blocks →
      LRUPolicy.access blocks tag assoc =
        some ⟨.HIT, none, (blocks.erase tag) ++ [tag]⟩) ∧
    (∀ (blocks : List Nat) (tag assoc : Nat), tag ∉ blocks →
      blocks.length < assoc →
      LRUPolicy.access blocks tag assoc =
        some ⟨.MISS, none, blocks ++ [tag]⟩) ∧
    (∀ (r : Nat) (rest : List Nat) (tag assoc : Nat), tag ∉ r :: rest →
      assoc ≤ (r :: rest).length →
      LRUPolicy.access (r :: rest) tag assoc =
        some ⟨.MISS, some r, rest ++ [tag]⟩) ∧
    LRUPolicy.run [] 2 [0, 1, 0, 2] =
      some ([.MISS, .MISS, .HIT, .MISS], [0, 2]) := by
  refine ⟨?_, ?_, ?_, by decide⟩
  · intro blocks tag assoc h
    simp [LRUPolicy.access, h]
  · intro blocks tag assoc h hlt
    simp [LRUPolicy.access, h, hlt]
  · intro r rest tag assoc h hle
    simp [LRUPolicy.access, h, Nat.not_lt.2 hle]
    simpa using hle

/-- Witness for C3 at concrete inputs: a hit on `[3, 7]`, a miss with
spare room on `[3]`, and an evicting miss on the full 2-way set
`[3, 5]`. -/
theorem lru_access_spec_witness :
    LRUPolicy.access [3, 7] 7 2 =
      some ⟨.HIT, none, (([3, 7] : List Nat).erase 7) ++ [7]⟩ ∧
    LRUPolicy.access [3] 7 2 = some ⟨.MISS, none, [3] ++ [7]⟩ ∧
    LRUPolicy.access [3, 5] 7 2 = some ⟨.MISS, some 3, [5] ++ [7]⟩ :=
  ⟨lru_access_spec.1 [3, 7] 7 2 (by decide),
   lru_access_spec.2.1 [3] 7 2 (by decide) (by decide),
   lru_access_spec.2.2.1 3 [5] 7 2 (by decide) (by decide)⟩

/-- C4: FIFO behaviour.  On hit the set is left untouched (no
reordering) and nothing is evicted; on a miss below capacity the tag is
appended; on a miss at capacity position 0 (first inserted) is removed,
reported as evicted, and the tag is appended.  The same `[A, B, A, C]`
sequence on an empty 2-way set yields `[Miss, Miss, Hit, Miss]` with
final residents `[B, C]` — A is evicted despite its hit. -/
theorem fifo_access_spec :
    (∀ (blocks : List Nat) (tag assoc : Nat), tag ∈ blocks →
      FIFOPolicy.access blocks tag assoc = some ⟨.HIT, none, blocks⟩) ∧
    (∀ (blocks : List Nat) (tag assoc : Nat), tag ∉ blocks →
      blocks.length < assoc →
      FIFOPolicy.access blocks tag assoc =
        some ⟨.MISS, none, blocks ++ [tag]⟩) ∧
    (∀ (r : Nat) (rest : List Nat) (tag assoc : Nat), tag ∉ r :: rest →
      assoc ≤ (r :: rest).length →
      FIFOPolicy.access (r :: rest) tag assoc =
        some ⟨.MISS, some r, rest ++ [tag]⟩) ∧
    FIFOPolicy.run [] 2 [0, 1, 0, 2] =
      some ([.MISS, .MISS, .HIT, .MISS], [1, 2]) := by
  refine ⟨?_, ?_, ?_, by decide⟩
  · intro blocks tag assoc h
    simp [FIFOPolicy.access, h]
  · intro blocks tag assoc h hlt
    simp [FIFOPolicy.access, h, hlt]
  · intro r rest tag assoc h hle
    simp [FIFOPolicy.access, h, Nat.not_lt.2 hle]
    simpa using hle

/-- Witness for C4 at concrete inputs, including the no-reorder hit. -/
theorem fifo_access_spec_witness :
    FIFOPolicy.access [3, 7] 3 2 = some ⟨.HIT, none, [3, 7]⟩ ∧
    FIFOPolicy.access [3] 7 2 = some ⟨.MISS, none, [3] ++ [7]⟩ ∧
    FIFOPolicy.access [3, 5] 7 2 = some ⟨.MISS, some 3, [5] ++ [7]⟩ :=
  ⟨fifo_access_spec.1 [3, 7] 3 2 (by decide),
   fifo_access_spec.2.1 [3] 7 2 (by decide) (by decide),
   fifo_access_spec.2.2.1 3 [5] 7 2 (by decide) (by decide)⟩

/-- C5: `get_address_breakdown` is a deterministic value-level function
of the config and the address — the only side effect in the source is a
diagnostic `print`, which reads no mutable state and writes none — and
on any config whose divisors are non-zero it returns
`(block_number % num_sets, block_number / num_sets)` for
`block_number = address / block_size_bytes`; the Cache's private
`_get_set_index` / `_get_tag` derivation computes exactly the same two
values. -/
theorem address_breakdown_spec (cfg : CacheConfig) (address : Nat)
    (hbs : cfg.block_size_bytes ≠ 0) (hns : cfg.num_sets ≠ 0) :
    cfg.get_address_breakdown address =
      some ((address / cfg.block_size_bytes) % cfg.num_sets,
            (address / cfg.block_size_bytes) / cfg.num_sets) ∧
    cfg.get_address_breakdown address = cfg.get_address_breakdown address ∧
    Cache.get_set_index cfg address =
      some ((address / cfg.block_size_bytes) % cfg.num_sets) ∧
    Cache.get_tag cfg address =
      some ((address / cfg.block_size_bytes) / cfg.num_sets) := by
  refine ⟨?_, rfl, ?_, ?_⟩ <;>
    simp [CacheConfig.get_address_breakdown, Cache.get_set_index,
          Cache.get_tag, hbs, hns]

/-- Witness for C5: the 8 KB / 64 B / 2-way config (128 blocks, 64
sets) at address 4096. -/
theorem address_breakdown_spec_witness :
    (⟨8, 64, 2, 8192, 128, 64⟩ : CacheConfig).get_address_breakdown 4096 =
      some ((4096 / 64) % 64, (4096 / 64) / 64) ∧
    (⟨8, 64, 2, 8192, 128, 64⟩ : CacheConfig).get_address_breakdown 4096 =
      (⟨8, 64, 2, 8192, 128, 64⟩ : CacheConfig).get_address_breakdown 4096 ∧
    Cache.get_set_index ⟨8, 64, 2, 8192, 128, 64⟩ 4096 =
      some ((4096 / 64) % 64) ∧
    Cache.get_tag ⟨8, 64, 2, 8192, 128, 64⟩ 4096 =
      some ((4096 / 64) / 64) :=
  address_breakdown_spec ⟨8, 64, 2, 8192, 128, 64⟩ 4096
    (by decide) (by decide)

/-- C6: for every valid configuration (positive block size and cache
size, associativity at most the block count) construction succeeds and
the derived fields satisfy `cache_size_bytes = cache_size_kb * 1024`,
`num_blocks = cache_size_bytes / block_size_bytes`, `num_sets ≥ 1`,
`num_sets = 1` exactly under the fully-associative sentinel
`associativity = 0`, and `num_sets = num_blocks / associativity`
otherwise. -/
theorem num_sets_spec (kb bs assoc : Nat) (hbs : 0 < bs) (hkb : 0 < kb)
    (hassoc : assoc ≤ kb * 1024 / bs) :
    ∃ cfg, CacheConfig.build kb bs assoc = some cfg ∧
      cfg.cache_size_bytes = kb * 1024 ∧
      cfg.num_blocks = cfg.cache_size_bytes / cfg.block_size_bytes ∧
      1 ≤ cfg.num_sets ∧
      (assoc = 0 → cfg.num_sets = 1) ∧
      (assoc ≠ 0 → cfg.num_sets = cfg.num_blocks / assoc) := by
  have hbs' : bs ≠ 0 := Nat.pos_iff_ne_zero.mp hbs
  refine ⟨⟨kb, bs, assoc, kb * 1024, kb * 1024 / bs,
           if assoc = 0 then 1 else kb * 1024 / bs / assoc⟩,
          ?_, rfl, rfl, ?_, ?_, ?_⟩
  · simp [CacheConfig.build, hbs']
  · by_cases h : assoc = 0
    · simp [h]
    · simp only [h, if_false]
      exact (Nat.one_le_div_iff (Nat.pos_of_ne_zero h)).2 hassoc
  · intro h; simp [h]
  · intro h; simp [h]

/-- Witness for C6: the 8 KB / 64 B / 2-way configuration. -/
theorem num_sets_spec_witness :
    ∃ cfg, CacheConfig.build 8 64 2 = some cfg ∧
      cfg.cache_size_bytes = 8 * 1024 ∧
      cfg.num_blocks = cfg.cache_size_bytes / cfg.block_size_bytes ∧
      1 ≤ cfg.num_sets ∧
      ((2 : Nat) = 0 → cfg.num_sets = 1) ∧
      ((2 : Nat) ≠ 0 → cfg.num_sets = cfg.num_blocks / 2) :=
  num_sets_spec 8 64 2 (by decide) (by decide) (by decide)

/-- C10: `_setup_policy` is total and case-insensitive: it upper-cases
the selector, maps `"LRU"`/`"FIFO"`/`"RANDOM"` (in any letter case) to
the corresponding policy, maps every other selector to LRU without
failing, and always yields one of the three variants. -/
theorem setup_policy_spec :
    (∀ s : String, pyUpper s = "LRU" → Cache.setup_policy s = .lru) ∧
    (∀ s : String, pyUpper s = "FIFO" → Cache.setup_policy s = .fifo) ∧
    (∀ s : String, pyUpper s = "RANDOM" → Cache.setup_policy s = .random) ∧
    (∀ s : String, pyUpper s ≠ "LRU" → pyUpper s ≠ "FIFO" →
      pyUpper s ≠ "RANDOM" → Cache.setup_policy s = .lru) ∧
    (∀ s : String, Cache.setup_policy s = .lru ∨
      Cache.setup_policy s = .fifo ∨ Cache.setup_policy s = .random) ∧
    Cache.setup_policy "Lru" = .lru ∧
    Cache.setup_policy "fifo" = .fifo ∧
    Cache.setup_policy "Random" = .random ∧
    Cache.setup_policy "banana" = .lru := by
  refine ⟨?_, ?_, ?_, ?_, ?_, by decide, by decide, by decide, by decide⟩
  · intro s h
    simp [Cache.setup_policy, h]
  · intro s h
    simp [Cache.setup_policy, h]
  · intro s h
    simp [Cache.setup_policy, h]
  · intro s h1 h2 h3
    simp only [Cache.setup_policy]
    rw [if_neg h1, if_neg h2, if_neg h3]
  · intro s
    simp only [Cache.setup_policy]
    split_ifs <;> simp

/-- Witness for C10 at concrete selectors. -/
theorem setup_policy_spec_witness :
    Cache.setup_policy "lru" = .lru ∧
    Cache.setup_policy "Fifo" = .fifo ∧
    Cache.setup_policy "rAnDoM" = .random ∧
    Cache.setup_policy "clock" = .lru ∧
    (Cache.setup_policy "xyz" = .lru ∨ Cache.setup_policy "xyz" = .fifo ∨
      Cache.setup_policy "xyz" = .random) :=
  ⟨setup_policy_spec.1 "lru" (by decide),
   setup_policy_spec.2.1 "Fifo" (by decide),
   setup_policy_spec.2.2.1 "rAnDoM" (by decide),
   setup_policy_spec.2.2.2.1 "clock" (by decide) (by decide) (by decide),
   setup_policy_spec.2.2.2.2.1 "xyz"⟩

/-- C8 counterexample: the dictionary literal returned by
`Cache.get_stats` has no key `"policy_name"`; the policy's name is
stored under the key `"policy"`.  This refutes the claimed field list
`{accesses, hits, misses, hit_rate, replacements, policy_name}`. -/
theorem get_stats_has_no_policy_name_key :
    ("policy_name" ∉ Cache.get_stats_keys) ∧
    "policy" ∈ Cache.get_stats_keys := by
  decide

/-- C8 (amended): `get_stats` returns a freshly computed snapshot — a
pure function of the state, so the cache is unchanged and the caller
holds no live reference into it — whose fields are named `accesses`,
`hits`, `misses`, `hit_rate`, `replacements` and `policy` (not
`policy_name`), with `hit_rate = hits / accesses * 100` when
`accesses > 0`, `hit_rate = 0` when `accesses = 0` (defined, never
NaN), and `0 ≤ hit_rate ≤ 100` whenever `hits ≤ accesses` (true of
every state reachable by accesses). -/
theorem get_stats_spec (c : CacheState) (h : c.hits ≤ c.accesses) :
    (Cache.get_stats c).accesses = c.accesses ∧
    (Cache.get_stats c).hits = c.hits ∧
    (Cache.get_stats c).misses = c.misses ∧
    (Cache.get_stats c).replacements = c.replacements ∧
    (Cache.get_stats c).policy = c.policy.name ∧
    (c.accesses = 0 → (Cache.get_stats c).hit_rate = 0) ∧
    (0 < c.accesses →
      (Cache.get_stats c).hit_rate =
        (c.hits : ℚ) / (c.accesses : ℚ) * 100) ∧
    0 ≤ (Cache.get_stats c).hit_rate ∧
    (Cache.get_stats c).hit_rate ≤ 100 ∧
    Cache.get_stats_keys =
      ["accesses", "hits", "misses", "hit_rate", "replacements",
       "policy"] := by
  refine ⟨rfl, rfl, rfl, rfl, rfl, ?_, ?_, ?_, ?_, rfl⟩
  · intro h0
    simp [Cache.get_stats, h0]
  · intro h0
    simp [Cache.get_stats, h0]
  · by_cases h0 : 0 < c.accesses
    · have : (Cache.get_stats c).hit_rate =
          (c.hits : ℚ) / (c.accesses : ℚ) * 100 := by
        simp [Cache.get_stats, h0]
      rw [this]
      positivity
    · have : (Cache.get_stats c).hit_rate = 0 := by
        simp [Cache.get_stats, h0]
      rw [this]
  · by_cases h0 : 0 < c.accesses
    · have hrw : (Cache.get_stats c).hit_rate =
          (c.hits : ℚ) / (c.accesses : ℚ) * 100 := by
        simp [Cache.get_stats, h0]
      rw [hrw]
      have hpos : (0 : ℚ) < (c.accesses : ℚ) := by
        exact_mod_cast h0
      have hle : (c.hits : ℚ) / (c.accesses : ℚ) ≤ 1 :=
        (div_le_one hpos).2 (by exact_mod_cast h)
      calc (c.hits : ℚ) / (c.accesses : ℚ) * 100
          ≤ 1 * 100 := by
            exact mul_le_mul_of_nonneg_right hle (by norm_num)
        _ = 100 := by norm_num
    · have : (Cache.get_stats c).hit_rate = 0 := by
        simp [Cache.get_stats, h0]
      rw [this]
      norm_num

/-- Witness for C8 (amended) on a concrete state after four accesses
with three hits. -/
theorem get_stats_spec_witness :
    (Cache.get_stats
        ⟨⟨8, 64, 2, 8192, 128, 64⟩, .lru, 4, 3, 1, 0, [[]], [], 4, 3⟩).accesses
        = 4 ∧
    (Cache.get_stats
        ⟨⟨8, 64, 2, 8192, 128, 64⟩, .lru, 4, 3, 1, 0, [[]], [], 4, 3⟩).hits
        = 3 ∧
    0 ≤ (Cache.get_stats
        ⟨⟨8, 64, 2, 8192, 128, 64⟩, .lru, 4, 3, 1, 0, [[]], [], 4, 3⟩).hit_rate ∧
    (Cache.get_stats
        ⟨⟨8, 64, 2, 8192, 128, 64⟩, .lru, 4, 3, 1, 0, [[]], [], 4, 3⟩).hit_rate
        ≤ 100 := by
  have h := get_stats_spec
    ⟨⟨8, 64, 2, 8192, 128, 64⟩, .lru, 4, 3, 1, 0, [[]], [], 4, 3⟩
    (by decide)
  exact ⟨h.1, h.2.1, h.2.2.2.2.2.2.2.1, h.2.2.2.2.2.2.2.2.1⟩

/-! ## The access step lemma -/

theorem lru_policy_access_good (blocks : List Nat) (tag assoc : Nat)
    (hnd : blocks.Nodup) (hlen : blocks.length ≤ assoc)
    (hassoc : 1 ≤ assoc) :
    ∃ r, LRUPolicy.access blocks tag assoc = some r ∧
      GoodStep blocks tag assoc r := by
  by_cases hmem : tag ∈ blocks
  · refine ⟨⟨.HIT, none, (blocks.erase tag) ++ [tag]⟩, ?_, ?_, ?_, ?_, ?_⟩
    · simp [LRUPolicy.access, hmem]
    · exact nodup_append_single (hnd.erase tag) hnd.not_mem_erase
    · simp [List.length_erase_of_mem hmem]
      have : 1 ≤ blocks.length := List.length_pos.2 (List.ne_nil_of_mem hmem)
      omega
    · simp [hmem]
    · simp [hmem]
  · by_cases hlt : blocks.length < assoc
    · refine ⟨⟨.MISS, none, blocks ++ [tag]⟩, ?_, ?_, ?_, ?_, ?_⟩
      · simp [LRUPolicy.access, hmem, hlt]
      · exact nodup_append_single hnd hmem
      · simp; omega
      · simp [hmem]
      · simp [hmem, hlt]
    · cases blocks with
      | nil =>
        exact absurd hassoc (by simpa using hlt)
      | cons b0 rest =>
        refine ⟨⟨.MISS, some b0, rest ++ [tag]⟩, ?_, ?_, ?_, ?_, ?_⟩
        · simp only [LRUPolicy.access, if_neg hmem, if_neg hlt]
        · exact nodup_append_single hnd.of_cons
            (fun hm => hmem (List.mem_cons_of_mem _ hm))
        · simp at hlen ⊢; omega
        · simp [hmem]
        · simp [hmem]; simpa using hlt

theorem fifo_policy_access_good (blocks : List Nat) (tag assoc : Nat)
    (hnd : blocks.Nodup) (hlen : blocks.length ≤ assoc)
    (hassoc : 1 ≤ assoc) :
    ∃ r, FIFOPolicy.access blocks tag assoc = some r ∧
      GoodStep blocks tag assoc r := by
  by_cases hmem : tag ∈ blocks
  · exact ⟨⟨.HIT, none, blocks⟩, by simp [FIFOPolicy.access, hmem],
      hnd, hlen, by simp [hmem], by simp [hmem]⟩
  · by_cases hlt : blocks.length < assoc
    · refine ⟨⟨.MISS, none, blocks ++ [tag]⟩, ?_, ?_, ?_, ?_, ?_⟩
      · simp [FIFOPolicy.access, hmem, hlt]
      · exact nodup_append_single hnd hmem
      · simp; omega
      · simp [hmem]
      · simp [hmem, hlt]
    · cases blocks with
      | nil =>
        exact absurd hassoc (by simpa using hlt)
      | cons b0 rest =>
        refine ⟨⟨.MISS, some b0, rest ++ [tag]⟩, ?_, ?_, ?_, ?_, ?_⟩
        · simp only [FIFOPolicy.access, if_neg hmem, if_neg hlt]
        · exact nodup_append_single hnd.of_cons
            (fun hm => hmem (List.mem_cons_of_mem _ hm))
        · simp at hlen ⊢; omega
        · simp [hmem]
        · simp [hmem]; simpa using hlt

theorem random_policy_access_good (blocks : List Nat) (tag assoc draw : Nat)
    (hnd : blocks.Nodup) (hlen : blocks.length ≤ assoc)
    (hassoc : 1 ≤ assoc) :
    ∃ r, RandomPolicy.access blocks tag assoc draw = some r ∧
      GoodStep blocks tag assoc r := by
  by_cases hmem : tag ∈ blocks
  · exact ⟨⟨.HIT, none, blocks⟩, by simp [RandomPolicy.access, hmem],
      hnd, hlen, by simp [hmem], by simp [hmem]⟩
  · by_cases hlt : blocks.length < assoc
    · refine ⟨⟨.MISS, none, blocks ++ [tag]⟩, ?_, ?_, ?_, ?_, ?_⟩
      · simp [RandomPolicy.access, hmem, hlt]
      · exact nodup_append_single hnd hmem
      · simp; omega
      · simp [hmem]
      · simp [hmem, hlt]
    · have hpos : 0 < blocks.length := by omega
      have hmod : draw % blocks.length < blocks.length := Nat.mod_lt _ hpos
      refine ⟨⟨.MISS, some (blocks.get ⟨draw % blocks.length, hmod⟩),
               blocks.set (draw % blocks.length) tag⟩, ?_, ?_, ?_, ?_, ?_⟩
      · simp only [RandomPolicy.access, if_neg hmem, if_neg hlt,
          List.get?_eq_get hmod]
      · exact hnd.set hmem
      · simpa using hlen
      · simp [hmem]
      · simp [hmem, hlt]

theorem policyDecide_good (p : PolicyKind) (blocks : List Nat)
    (tag assoc draw : Nat) (hnd : blocks.Nodup)
    (hlen : blocks.length ≤ assoc) (hassoc : 1 ≤ assoc) :
    ∃ r, policyDecide p blocks tag assoc draw = some r ∧
      GoodStep blocks tag assoc r := by
  cases p with
  | lru => exact lru_policy_access_good blocks tag assoc hnd hlen hassoc
  | fifo => exact fifo_policy_access_good blocks tag assoc hnd hlen hassoc
  | random => exact random_policy_access_good blocks tag assoc draw hnd hlen hassoc

theorem sets_set_wf {sets : List (List Nat)} {assoc idx : Nat}
    {nb : List Nat} (hs : ∀ b ∈ sets, b.Nodup ∧ b.length ≤ assoc)
    (hnb : nb.Nodup) (hnl : nb.length ≤ assoc) :
    ∀ b ∈ sets.set idx nb, b.Nodup ∧ b.length ≤ assoc := by
  intro b hbm
  rcases List.mem_or_eq_of_mem_set hbm with h | h
  · exact hs b h
  · subst h
    exact ⟨hnb, hnl⟩

/-- One successful `Cache.access` step from a well-formed state:
it cannot fail, preserves well-formedness, bumps the access counter,
bumps the hit or miss counter according to the outcome, and bumps the
replacement counter exactly on a miss whose target set was already at
capacity. -/
theorem Cache.access_step (draw : Nat) (c : CacheState) (address : Nat)
    (hwf : CacheWF c) :
    ∃ o c', Cache.access draw c address = some (o, c') ∧ CacheWF c' ∧
      c'.config = c.config ∧ c'.policy = c.policy ∧
      c'.accesses = c.accesses + 1 ∧
      c'.hits = c.hits + (if o = .HIT then 1 else 0) ∧
      c'.misses = c.misses + (if o = .MISS then 1 else 0) ∧
      c'.replacements = c.replacements +
        (if o = .MISS ∧
            c.config.associativity ≤ (Cache.target_set c address).length
          then 1 else 0) := by
  obtain ⟨hassoc, hbs, hns, hslen, hsets⟩ := hwf
  have hidx : (address / c.config.block_size_bytes) % c.config.num_sets
      < c.sets.length := by
    rw [hslen]
    exact Nat.mod_lt _ (Nat.pos_of_ne_zero hns)
  set b := c.sets.get
    ⟨(address / c.config.block_size_bytes) % c.config.num_sets, hidx⟩
    with hbdef
  have hb : c.sets.get?
      ((address / c.config.block_size_bytes) % c.config.num_sets)
      = some b := List.get?_eq_get hidx
  have hb' : c.sets[(address / c.config.block_size_bytes) %
      c.config.num_sets]? = some b := by
    simpa using hb
  have hbmem : b ∈ c.sets := List.get?_mem hb
  obtain ⟨hbnd, hblen⟩ := hsets b hbmem
  have htarget : Cache.target_set c address = b := by
    simp only [Cache.target_set, Cache.target_index, hb, Option.getD_some]
  obtain ⟨r, hr, hrnd, hrlen, hrout, hrev⟩ :=
    policyDecide_good c.policy b
      ((address / c.config.block_size_bytes) / c.config.num_sets)
      c.config.associativity draw hbnd hblen hassoc
  rcases r with ⟨o, ev, nb⟩
  simp only at hrnd hrlen hrout hrev
  cases o with
  | HIT =>
    have hwf' : CacheWF
        { c with accesses := c.accesses + 1,
                 policy_accesses := c.policy_accesses + 1,
                 sets := c.sets.set
                   ((address / c.config.block_size_bytes) %
                     c.config.num_sets) nb,
                 hits := c.hits + 1, policy_hits := c.policy_hits + 1 } :=
      ⟨hassoc, hbs, hns, by simpa using hslen,
       sets_set_wf hsets hrnd hrlen⟩
    by_cases hlog : c.access_log.length < 1000
    · refine ⟨.HIT,
        { c with accesses := c.accesses + 1,
                 policy_accesses := c.policy_accesses + 1,
                 sets := c.sets.set
                   ((address / c.config.block_size_bytes) %
                     c.config.num_sets) nb,
                 hits := c.hits + 1, policy_hits := c.policy_hits + 1,
                 access_log := c.access_log ++
                   [⟨address,
                     (address / c.config.block_size_bytes) %
                       c.config.num_sets, .HIT⟩] },
        ?_, ?_, rfl, rfl, rfl, by simp, by simp, by simp⟩
      · simp [Cache.access, hbs, hns, hb', hr, hlog]
      · exact ⟨hassoc, hbs, hns, by simpa using hslen,
          sets_set_wf hsets hrnd hrlen⟩
    · refine ⟨.HIT,
        { c with accesses := c.accesses + 1,
                 policy_accesses := c.policy_accesses + 1,
                 sets := c.sets.set
                   ((address / c.config.block_size_bytes) %
                     c.config.num_sets) nb,
                 hits := c.hits + 1, policy_hits := c.policy_hits + 1 },
        ?_, hwf', rfl, rfl, rfl, by simp, by simp, by simp⟩
      simp [Cache.access, hbs, hns, hb', hr, hlog]
  | MISS =>
    have hmem : ((address / c.config.block_size_bytes) /
        c.config.num_sets) ∉ b := by
      intro hm
      exact absurd (hrout.2 hm) (by simp)
    cases ev with
    | none =>
      have hlt : b.length < c.config.associativity := by
        rcases hrev.1 rfl with h | h
        · exact absurd h hmem
        · exact h
      have hnotfull : ¬ ((.MISS : AccessOutcome) = .MISS ∧
          c.config.associativity ≤ (Cache.target_set c address).length) := by
        rw [htarget]
        intro hcon
        exact absurd hcon.2 (Nat.not_le.2 hlt)
      by_cases hlog : c.access_log.length < 1000
      · refine ⟨.MISS,
          { c with accesses := c.accesses + 1,
                   policy_accesses := c.policy_accesses + 1,
                   sets := c.sets.set
                     ((address / c.config.block_size_bytes) %
                       c.config.num_sets) nb,
                   misses := c.misses + 1,
                   access_log := c.access_log ++
                     [⟨address,
                       (address / c.config.block_size_bytes) %
                         c.config.num_sets, .MISS⟩] },
          ?_, ?_, rfl, rfl, rfl, by simp, by simp,
          by simp [htarget, Nat.not_le.2 hlt]⟩
        · simp [Cache.access, hbs, hns, hb', hr, hlog]
        · exact ⟨hassoc, hbs, hns, by simpa using hslen,
            sets_set_wf hsets hrnd hrlen⟩
      · refine ⟨.MISS,
          { c with accesses := c.accesses + 1,
                   policy_accesses := c.policy_accesses + 1,
                   sets := c.sets.set
                     ((address / c.config.block_size_bytes) %
                       c.config.num_sets) nb,
                   misses := c.misses + 1 },
          ?_, ?_, rfl, rfl, rfl, by simp, by simp,
          by simp [htarget, Nat.not_le.2 hlt]⟩
        · simp [Cache.access, hbs, hns, hb', hr, hlog]
        · exact ⟨hassoc, hbs, hns, by simpa using hslen,
            sets_set_wf hsets hrnd hrlen⟩
    | some e =>
      have hfull : c.config.associativity ≤ b.length := by
        rcases Nat.lt_or_ge b.length c.config.associativity with h | h
        · exact absurd (hrev.2 (Or.inr h)) (by simp)
        · exact h
      have hisfull : ((.MISS : AccessOutcome) = .MISS ∧
          c.config.associativity ≤ (Cache.target_set c address).length) := by
        rw [htarget]
        exact ⟨rfl, hfull⟩
      by_cases hlog : c.access_log.length < 1000
      · refine ⟨.MISS,
          { c with accesses := c.accesses + 1,
                   policy_accesses := c.policy_accesses + 1,
                   sets := c.sets.set
                     ((address / c.config.block_size_bytes) %
                       c.config.num_sets) nb,
                   misses := c.misses + 1,
                   replacements := c.replacements + 1,
                   access_log := c.access_log ++
                     [⟨address,
                       (address / c.config.block_size_bytes) %
                         c.config.num_sets, .MISS⟩] },
          ?_, ?_, rfl, rfl, rfl, by simp, by simp,
          by simp [htarget, hfull]⟩
        · simp [Cache.access, hbs, hns, hb', hr, hlog]
        · exact ⟨hassoc, hbs, hns, by simpa using hslen,
            sets_set_wf hsets hrnd hrlen⟩
      · refine ⟨.MISS,
          { c with accesses := c.accesses + 1,
                   policy_accesses := c.policy_accesses + 1,
                   sets := c.sets.set
                     ((address / c.config.block_size_bytes) %
                       c.config.num_sets) nb,
                   misses := c.misses + 1,
                   replacements := c.replacements + 1 },
          ?_, ?_, rfl, rfl, rfl, by simp, by simp,
          by simp [htarget, hfull]⟩
        · simp [Cache.access, hbs, hns, hb', hr, hlog]
        · exact ⟨hassoc, hbs, hns, by simpa using hslen,
            sets_set_wf hsets hrnd hrlen⟩

/-- Running any address list from a well-formed state succeeds,
preserves well-formedness and the config, and keeps the counters
related by: misses gained = replacements gained + spare-capacity
misses. -/
theorem Cache.run_good (oracle : Nat → Nat) (addrs : List Nat)
    (c : CacheState) (hwf : CacheWF c) :
    ∃ os c', Cache.run oracle c addrs = some (os, c') ∧ CacheWF c' ∧
      c'.config = c.config ∧
      c'.misses + c.replacements =
        c.misses + c'.replacements +
          Cache.count_spare_misses oracle c addrs := by
  induction addrs generalizing c with
  | nil =>
    exact ⟨[], c, rfl, hwf, rfl, by simp [Cache.count_spare_misses]⟩
  | cons a rest ih =>
    obtain ⟨o, c1, hacc, hwf1, hcfg, hpol, hA, hH, hM, hR⟩ :=
      Cache.access_step (oracle c.accesses) c a hwf
    obtain ⟨os, c', hrun, hwf', hcfg', heq⟩ := ih c1 hwf1
    refine ⟨o :: os, c', ?_, hwf', by rw [hcfg', hcfg], ?_⟩
    · simp [Cache.run, hacc, hrun]
    · cases o with
      | HIT =>
        have hsm : Cache.spare_miss (oracle c.accesses) c a = false := by
          simp [Cache.spare_miss, hacc]
        have hcount : Cache.count_spare_misses oracle c (a :: rest) =
            Cache.count_spare_misses oracle c1 rest := by
          simp [Cache.count_spare_misses, hacc, hsm]
        simp only [reduceCtorEq, if_false, false_and, if_true, Nat.add_zero] at hM hR
        rw [hcount]
        omega
      | MISS =>
        by_cases hs : (Cache.target_set c a).length < c.config.associativity
        · have hsm : Cache.spare_miss (oracle c.accesses) c a = true := by
            simp [Cache.spare_miss, hacc, hs]
          have hcount : Cache.count_spare_misses oracle c (a :: rest) =
              1 + Cache.count_spare_misses oracle c1 rest := by
            simp [Cache.count_spare_misses, hacc, hsm]
          simp only [if_true, Nat.not_le.2 hs, and_false, if_false,
            Nat.add_zero] at hM hR
          rw [hcount]
          omega
        · have hsm : Cache.spare_miss (oracle c.accesses) c a = false := by
            simp [Cache.spare_miss, hacc, hs]
          have hcount : Cache.count_spare_misses oracle c (a :: rest) =
              Cache.count_spare_misses oracle c1 rest := by
            simp [Cache.count_spare_misses, hacc, hsm]
          have hfull : c.config.associativity ≤
              (Cache.target_set c a).length := Nat.not_lt.1 hs
          simp only [if_true, hfull, and_true, true_and, if_pos] at hM hR
          rw [hcount]
          omega

/-- A cache freshly built from a valid configuration with a positive
associativity is well-formed and starts with zeroed counters. -/
theorem Cache.init_good (kb bs assoc : Nat) (policy_name : String)
    (cfg : CacheConfig) (hbs : 0 < bs) (hassoc : 1 ≤ assoc)
    (hcap : assoc ≤ kb * 1024 / bs)
    (hcfg : CacheConfig.build kb bs assoc = some cfg) :
    CacheWF (Cache.init cfg policy_name) ∧
    (Cache.init cfg policy_name).config = cfg ∧
    cfg.associativity = assoc ∧
    (Cache.init cfg policy_name).misses = 0 ∧
    (Cache.init cfg policy_name).replacements = 0 := by
  have hbs' : bs ≠ 0 := Nat.pos_iff_ne_zero.mp hbs
  have hassoc' : assoc ≠ 0 := by omega
  have hlit : CacheConfig.build kb bs assoc =
      some ⟨kb, bs, assoc, kb * 1024, kb * 1024 / bs,
            if assoc = 0 then 1 else kb * 1024 / bs / assoc⟩ := by
    simp [CacheConfig.build, hbs']
  have hc : (⟨kb, bs, assoc, kb * 1024, kb * 1024 / bs,
      if assoc = 0 then 1 else kb * 1024 / bs / assoc⟩ : CacheConfig)
      = cfg := Option.some.inj (hlit.symm.trans hcfg)
  subst hc
  have hns : (if assoc = 0 then 1 else kb * 1024 / bs / assoc) ≠ 0 := by
    rw [if_neg hassoc']
    have : 1 ≤ kb * 1024 / bs / assoc :=
      (Nat.one_le_div_iff (Nat.pos_of_ne_zero hassoc')).2 hcap
    omega
  refine ⟨⟨hassoc, hbs', hns, by simp [Cache.init], ?_⟩, rfl, rfl, rfl, rfl⟩
  intro b hbm
  rw [List.eq_of_mem_replicate hbm]
  exact ⟨List.nodup_nil, by simp⟩

/-- C7: after any finite access sequence on a well-formed cache (valid
configuration, positive associativity, any policy), the replacement
counter equals the miss counter minus the number of misses that found
spare capacity in their target set — equivalently, it was bumped
exactly on the accesses whose policy call reported an evicted tag. -/
theorem replacements_spec (kb bs assoc : Nat) (policy_name : String)
    (oracle : Nat → Nat) (addrs : List Nat) (cfg : CacheConfig)
    (hbs : 0 < bs) (hassoc : 1 ≤ assoc) (hcap : assoc ≤ kb * 1024 / bs)
    (hcfg : CacheConfig.build kb bs assoc = some cfg) :
    ∃ os c', Cache.run oracle (Cache.init cfg policy_name) addrs =
        some (os, c') ∧
      c'.misses = c'.replacements +
        Cache.count_spare_misses oracle (Cache.init cfg policy_name) addrs ∧
      c'.replacements = c'.misses -
        Cache.count_spare_misses oracle (Cache.init cfg policy_name) addrs := by
  obtain ⟨hwf, _, _, hm0, hr0⟩ :=
    Cache.init_good kb bs assoc policy_name cfg hbs hassoc hcap hcfg
  obtain ⟨os, c', hrun, _, _, heq⟩ :=
    Cache.run_good oracle addrs (Cache.init cfg policy_name) hwf
  exact ⟨os, c', hrun, by omega, by omega⟩

/-- Witness for C7: a direct-mapped single-set cache (1 KB, 1024-byte
blocks, 1-way) under LRU on `[0, 0, 2048]` — miss, hit, evicting
miss. -/
theorem replacements_spec_witness :
    ∃ os c', Cache.run (fun _ => 0)
        (Cache.init ⟨1, 1024, 1, 1024, 1, 1⟩ "LRU") [0, 0, 2048] =
        some (os, c') ∧
      c'.misses = c'.replacements +
        Cache.count_spare_misses (fun _ => 0)
          (Cache.init ⟨1, 1024, 1, 1024, 1, 1⟩ "LRU") [0, 0, 2048] ∧
      c'.replacements = c'.misses -
        Cache.count_spare_misses (fun _ => 0)
          (Cache.init ⟨1, 1024, 1, 1024, 1, 1⟩ "LRU") [0, 0, 2048] :=
  replacements_spec 1 1024 1 "LRU" (fun _ => 0) [0, 0, 2048]
    ⟨1, 1024, 1, 1024, 1, 1⟩ (by decide) (by decide) (by decide) (by decide)

/-- C9: for every valid configuration with `associativity ≥ 1`, every
policy selector and every finite access sequence (with any entropy for
the random policy), every associative set of the resulting cache holds
pairwise-distinct tags and never exceeds `associativity` entries; the
proof threads this invariant through each access. -/
theorem set_invariant_spec (kb bs assoc : Nat) (policy_name : String)
    (oracle : Nat → Nat) (addrs : List Nat) (cfg : CacheConfig)
    (hbs : 0 < bs) (hassoc : 1 ≤ assoc) (hcap : assoc ≤ kb * 1024 / bs)
    (hcfg : CacheConfig.build kb bs assoc = some cfg) :
    ∃ os c', Cache.run oracle (Cache.init cfg policy_name) addrs =
        some (os, c') ∧
      c'.sets.length = cfg.num_sets ∧
      ∀ b ∈ c'.sets, b.Nodup ∧ b.length ≤ assoc := by
  obtain ⟨hwf, hcfg0, hass, _, _⟩ :=
    Cache.init_good kb bs assoc policy_name cfg hbs hassoc hcap hcfg
  obtain ⟨os, c', hrun, hwf', hcfg', _⟩ :=
    Cache.run_good oracle addrs (Cache.init cfg policy_name) hwf
  obtain ⟨_, _, _, hslen', hsets'⟩ := hwf'
  refine ⟨os, c', hrun, ?_, ?_⟩
  · rw [hslen', hcfg', hcfg0]
  · intro b hbm
    have := hsets' b hbm
    rw [hcfg', hcfg0, hass] at this
    exact this

/-- Witness for C9: the same single-set cache under RANDOM on three
conflicting addresses. -/
theorem set_invariant_spec_witness :
    ∃ os c', Cache.run (fun _ => 0)
        (Cache.init ⟨1, 1024, 1, 1024, 1, 1⟩ "RANDOM") [0, 2048, 4096] =
        some (os, c') ∧
      c'.sets.length = (⟨1, 1024, 1, 1024, 1, 1⟩ : CacheConfig).num_sets ∧
      ∀ b ∈ c'.sets, b.Nodup ∧ b.length ≤ 1 :=
  set_invariant_spec 1 1024 1 "RANDOM" (fun _ => 0) [0, 2048, 4096]
    ⟨1, 1024, 1, 1024, 1, 1⟩ (by decide) (by decide) (by decide) (by decide)
